import Mathlib

/-!
Shallow embedding of the swaggrpc operation adapter
(operation_adapter.go): the per-field-kind string converters, value
extraction, parameter placement strategies, adapter construction and
per-call request assembly, together with theorems about them.
-/

/-- Runtime value decoded from a protobuf message field: the shallow
counterpart of the Go interface value handed to the converters.
Floating-point values are finite binary64 numbers carried as a signed
mantissa and a binary exponent, value = m * 2 ^ e; vNil models the Go
nil interface value; vAnyMap models a Go map with interface-typed keys
as an entry list (a Go map cannot hold two equal keys, so entry lists
with duplicate keys do not correspond to a Go value). -/
inductive GoValue where
  | vNil : GoValue
  | vBool (b : Bool) : GoValue
  | vInt (n : Int) : GoValue
  | vFloat (m : Int) (e : Int) : GoValue
  | vString (s : String) : GoValue
  | vList (xs : List GoValue) : GoValue
  | vStrMap (entries : List (String × GoValue)) : GoValue
  | vAnyMap (entries : List (GoValue × GoValue)) : GoValue
  | vMessage (fields : List (String × GoValue)) : GoValue

open GoValue

/-- Decimal digit character, for digit values below ten. -/
def digitChar (d : Nat) : Char := Char.ofNat (48 + d)

/-- Decimal digit characters of a natural number, most significant first.
The first argument is recursion fuel; any fuel exceeding the digit count of
n (in particular n + 1) yields the digits of n. -/
def natDecAux : Nat → Nat → List Char
  | 0, _ => []
  | fuel + 1, n =>
    if n < 10 then [digitChar n]
    else natDecAux fuel (n / 10) ++ [digitChar (n % 10)]

/-- Canonical decimal rendering of a natural number. -/
def natDec (n : Nat) : String := String.mk (natDecAux (n + 1) n)

/-- Canonical decimal rendering of an integer: an optional leading minus
sign followed by decimal digits, with no grouping separators. This is the
textual form fmt.Sprintf with verb v produces for Go integer values. -/
def intDec (n : Int) : String :=
  if n < 0 then "-" ++ natDec n.natAbs else natDec n.natAbs

/-- Value of a decimal digit character, none for anything else. -/
def digitVal (c : Char) : Option Nat :=
  if c.isDigit then some (c.toNat - 48) else none

/-- Accumulating decimal parser over characters. -/
def parseNatAux : List Char → Nat → Option Nat
  | [], acc => some acc
  | c :: cs, acc =>
    match digitVal c with
    | none => none
    | some d => parseNatAux cs (acc * 10 + d)

/-- Decimal parser for natural numbers; rejects the empty string. -/
def parseNatDec (s : String) : Option Nat :=
  match s.data with
  | [] => none
  | cs => parseNatAux cs 0

/-- Integer parse step once the first character is in hand: an optional
leading minus sign followed by at least one digit. -/
def parseSignedTail (c : Char) (cs : List Char) : Option Int :=
  if c = '-' then
    if cs = [] then none
    else
      match parseNatAux cs 0 with
      | none => none
      | some n => some (-(n : Int))
  else
    match parseNatAux (c :: cs) 0 with
    | none => none
    | some n => some ((n : Int))

/-- Decimal parser for integers: an optional leading minus sign followed
by at least one digit. -/
def parseIntDec (s : String) : Option Int :=
  match s.data with
  | [] => none
  | c :: cs => parseSignedTail c cs

theorem parseIntDec_data (s : String) (c : Char) (cs : List Char)
    (h : s.data = c :: cs) : parseIntDec s = parseSignedTail c cs := by
  unfold parseIntDec
  rw [h]

theorem digitChar_isDigit {d : Nat} (h : d < 10) : (digitChar d).isDigit = true := by
  interval_cases d <;> decide

theorem digitVal_digitChar {d : Nat} (h : d < 10) : digitVal (digitChar d) = some d := by
  interval_cases d <;> decide

theorem parseNatAux_append (xs ys : List Char) (acc : Nat) :
    parseNatAux (xs ++ ys) acc =
      match parseNatAux xs acc with
      | none => none
      | some a => parseNatAux ys a := by
  induction xs generalizing acc with
  | nil => simp [parseNatAux]
  | cons c cs ih =>
    simp only [List.cons_append, parseNatAux]
    cases digitVal c with
    | none => rfl
    | some d => exact ih _

theorem natDecAux_parse (fuel : Nat) : ∀ n acc, n < fuel →
    ∃ k, parseNatAux (natDecAux fuel n) acc = some (acc * 10 ^ k + n) ∧ 0 < k := by
  induction fuel with
  | zero => intro n acc h; omega
  | succ fuel ih =>
    intro n acc h
    by_cases hn : n < 10
    · refine ⟨1, ?_, one_pos⟩
      simp [natDecAux, hn, parseNatAux, digitVal_digitChar hn]
    · have hdiv : n / 10 < fuel := by omega
      obtain ⟨k, hk, hkpos⟩ := ih (n / 10) acc hdiv
      refine ⟨k + 1, ?_, by omega⟩
      have hmod : n % 10 < 10 := Nat.mod_lt _ (by omega)
      simp only [natDecAux, if_neg hn, parseNatAux_append, hk, parseNatAux,
        digitVal_digitChar hmod]
      congr 1
      have := Nat.div_add_mod n 10
      ring_nf
      omega

theorem natDecAux_digits (fuel : Nat) : ∀ n, n < fuel →
    (natDecAux fuel n).all (fun c => c.isDigit) = true := by
  induction fuel with
  | zero => intro n h; omega
  | succ fuel ih =>
    intro n h
    by_cases hn : n < 10
    · simp [natDecAux, hn, List.all_cons, digitChar_isDigit hn]
    · have hdiv : n / 10 < fuel := by omega
      have hmod : n % 10 < 10 := Nat.mod_lt _ (by omega)
      simp only [natDecAux, if_neg hn, List.all_append, ih (n / 10) hdiv,
        List.all_cons, List.all_nil, digitChar_isDigit hmod, Bool.and_self]

theorem natDecAux_ne_nil (fuel n : Nat) (h : n < fuel) : natDecAux fuel n ≠ [] := by
  cases fuel with
  | zero => omega
  | succ fuel =>
    by_cases hn : n < 10 <;> simp [natDecAux, hn]

/-- Round trip: parsing the canonical decimal rendering of a natural
number recovers the number. -/
theorem parseNatDec_natDec (n : Nat) : parseNatDec (natDec n) = some n := by
  obtain ⟨k, hk, -⟩ := natDecAux_parse (n + 1) n 0 (Nat.lt_succ_self n)
  have hne := natDecAux_ne_nil (n + 1) n (Nat.lt_succ_self n)
  unfold parseNatDec natDec
  cases hcs : natDecAux (n + 1) n with
  | nil => exact absurd hcs hne
  | cons c cs =>
    simp only [String.data]
    rw [← hcs]
    simpa using hk

theorem natDec_data (n : Nat) : (natDec n).data = natDecAux (n + 1) n := rfl

theorem string_data_append (s t : String) : (s ++ t).data = s.data ++ t.data := rfl

/-- Round trip: parsing the canonical decimal rendering of an integer
recovers the integer. -/
theorem parseIntDec_intDec (n : Int) : parseIntDec (intDec n) = some n := by
  have hmain : ∀ m : Nat, parseNatAux (natDecAux (m + 1) m) 0 = some m := by
    intro m
    have h := parseNatDec_natDec m
    have hne := natDecAux_ne_nil (m + 1) m (Nat.lt_succ_self m)
    unfold parseNatDec at h
    rw [natDec_data m] at h
    cases hcs : natDecAux (m + 1) m with
    | nil => exact absurd hcs hne
    | cons c cs => rw [hcs] at h; simpa using h
  have hhead : ∀ m : Nat, ∀ c cs, natDecAux (m + 1) m = c :: cs → c ≠ '-' := by
    intro m c cs hcs hc
    have h := natDecAux_digits (m + 1) m (Nat.lt_succ_self m)
    rw [hcs, hc] at h
    simp [List.all_cons] at h
  by_cases hn : n < 0
  · have hdata : (intDec n).data = '-' :: natDecAux (n.natAbs + 1) n.natAbs := by
      unfold intDec
      rw [if_pos hn, string_data_append]
      rfl
    have hne := natDecAux_ne_nil (n.natAbs + 1) n.natAbs (Nat.lt_succ_self _)
    rw [parseIntDec_data _ _ _ hdata]
    unfold parseSignedTail
    rw [if_pos rfl, if_neg hne, hmain n.natAbs]
    simp only [Option.some.injEq]
    omega
  · have hne := natDecAux_ne_nil (n.natAbs + 1) n.natAbs (Nat.lt_succ_self _)
    cases hcs : natDecAux (n.natAbs + 1) n.natAbs with
    | nil => exact absurd hcs hne
    | cons c cs =>
      have hdata : (intDec n).data = c :: cs := by
        unfold intDec
        rw [if_neg hn]
        exact hcs
      have hcne : c ≠ '-' := hhead n.natAbs c cs hcs
      rw [parseIntDec_data _ _ _ hdata]
      unfold parseSignedTail
      rw [if_neg hcne, ← hcs, hmain n.natAbs]
      simp only [Option.some.injEq]
      omega

/-- The canonical integer rendering contains only decimal digits and the
minus sign: no grouping separators and no locale-dependent characters. -/
theorem intDec_chars (n : Int) :
    (intDec n).data.all (fun c => c.isDigit || c == '-') = true := by
  have hnat : ∀ m : Nat,
      (natDecAux (m + 1) m).all (fun c => c.isDigit || c == '-') = true := by
    intro m
    have h := natDecAux_digits (m + 1) m (Nat.lt_succ_self m)
    simp only [List.all_eq_true] at h ⊢
    intro c hc
    simp [h c hc]
  by_cases hn : n < 0
  · have hdata : (intDec n).data = '-' :: natDecAux (n.natAbs + 1) n.natAbs := by
      unfold intDec
      rw [if_pos hn, string_data_append]
      rfl
    rw [hdata]
    simp only [List.all_cons, hnat n.natAbs]
    decide
  · have hdata : (intDec n).data = natDecAux (n.natAbs + 1) n.natAbs := by
      unfold intDec
      rw [if_neg hn]
      rfl
    rw [hdata]
    exact hnat n.natAbs

/-- Bit length of a natural number, fuel-based so that kernel reduction
stays structural; fuel n + 1 always suffices. -/
def bitLenAux : Nat → Nat → Nat
  | 0, _ => 0
  | fuel + 1, n => if n = 0 then 0 else bitLenAux fuel (n / 2) + 1

def bitLen (n : Nat) : Nat := bitLenAux (n + 1) n

/-- Decimal digit count of a natural number. -/
def decLen (n : Nat) : Nat := (natDecAux (n + 1) n).length

/-- Test 2 ^ k ≤ a / b for positive naturals a b and an integer k. -/
def pow2LeQ (k : Int) (a b : Nat) : Bool :=
  if 0 ≤ k then decide (b * 2 ^ k.toNat ≤ a) else decide (b ≤ a * 2 ^ (-k).toNat)

/-- Test 10 ^ k ≤ a / b for positive naturals a b and an integer k. -/
def pow10LeQ (k : Int) (a b : Nat) : Bool :=
  if 0 ≤ k then decide (b * 10 ^ k.toNat ≤ a) else decide (b ≤ a * 10 ^ (-k).toNat)

/-- Floor of the base-two logarithm of the positive rational a / b. -/
def floorLog2Q (a b : Nat) : Int :=
  let k0 : Int := (bitLen a : Int) - (bitLen b : Int)
  if pow2LeQ k0 a b then k0 else k0 - 1

/-- Floor of the base-ten logarithm of the positive rational a / b. -/
def floorLog10Q (a b : Nat) : Int :=
  let k0 : Int := (decLen a : Int) - (decLen b : Int)
  if pow10LeQ k0 a b then k0 else k0 - 1

/-- Round the nonnegative rational num / den to the nearest natural
number, ties to even. -/
def rheNat (num den : Nat) : Nat :=
  let q := num / den
  let r := num % den
  if 2 * r < den then q
  else if den < 2 * r then q + 1
  else if q % 2 = 0 then q else q + 1

/-- Multiply the rational a / b by base ^ k, as an exact
numerator-denominator pair. -/
def scalePow (a b : Nat) (k : Int) (base : Nat) : Nat × Nat :=
  if 0 ≤ k then (a * base ^ k.toNat, b) else (a, b * base ^ (-k).toNat)

/-- Round the positive rational a / b to the nearest IEEE binary64 value,
ties to even, returned as mantissa and binary exponent with
2 ^ 52 ≤ mantissa < 2 ^ 53. The model covers the normal finite range,
which contains every value appearing in this development. -/
def roundFloatPos (a b : Nat) : Int × Int :=
  let k := floorLog2Q a b
  let e := k - 52
  let nd := scalePow a b (-e) 2
  let m := rheNat nd.1 nd.2
  if m = 2 ^ 53 then ((2 ^ 52 : Int), e + 1) else ((m : Int), e)

/-- Round the rational sign * (a / b) to the nearest binary64 value: the
binary64 a decimal text with that exact value decodes to. -/
def roundFloatQ (sign : Int) (a b : Nat) : Int × Int :=
  if a = 0 then (0, 0)
  else
    let me := roundFloatPos a b
    if sign < 0 then (-me.1, me.2) else me

/-- Exact numerator and denominator of the absolute value of the binary64
value m * 2 ^ e. -/
def floatAbsND (m e : Int) : Nat × Nat := scalePow m.natAbs 1 e 2

/-- Nearest decimal with exactly n significant digits to the positive
rational a / b whose leading digit sits at decimal position t: a pair
(c, s) with value c * 10 ^ s. -/
def candidateAt (a b : Nat) (t : Int) (n : Nat) : Nat × Int :=
  let s := t - ((n : Int) - 1)
  let nd := scalePow a b (-s) 10
  let c := rheNat nd.1 nd.2
  if c = 10 ^ n then (10 ^ (n - 1), s + 1) else (c, s)

/-- Whether the decimal c * 10 ^ s decodes (with correct rounding) back to
the binary64 value m * 2 ^ e, for positive m and c. -/
def decRoundTrips (c : Nat) (s : Int) (m e : Int) : Bool :=
  let nd := scalePow c 1 s 10
  decide (roundFloatPos nd.1 nd.2 = (m, e))

/-- Search for the fewest significant decimal digits (and the closest such
decimal, ties to even) that decode back to the binary64 value m * 2 ^ e
with m positive. This is the shortest uniquely-decoding representation
documented for the Go strconv shortest formatting that fmt uses for the
verb v. Arguments a b and t carry the exact value and its decimal
exponent; n counts digits upward with fuel steps left; seventeen digits
always suffice for binary64. -/
def shortestLoop (m e : Int) (a b : Nat) (t : Int) : Nat → Nat → Nat × Int
  | _, 0 => candidateAt a b t 17
  | n, fuel + 1 =>
    let cs := candidateAt a b t n
    if decRoundTrips cs.1 cs.2 m e then cs
    else shortestLoop m e a b t (n + 1) fuel

/-- Shortest decoding-faithful decimal for the binary64 value m * 2 ^ e,
m positive: significant digits c and scale s with value c * 10 ^ s. -/
def shortestDigits (m e : Int) : Nat × Int :=
  let nd := floatAbsND m e
  let t := floorLog10Q nd.1 nd.2
  shortestLoop m e nd.1 nd.2 t 1 17

/-- Repeated zero digits. -/
def zeros (k : Nat) : String := String.mk (List.replicate k '0')

/-- Plain (non-scientific) layout of significant digits ds with the
leading digit at decimal position t. -/
def fmtDigitsF (ds : List Char) (t : Int) : String :=
  let n := ds.length
  if (n : Int) - 1 ≤ t then String.mk ds ++ zeros (t - ((n : Int) - 1)).toNat
  else if 0 ≤ t then
    String.mk (ds.take (t + 1).toNat) ++ "." ++ String.mk (ds.drop (t + 1).toNat)
  else "0." ++ zeros (-t - 1).toNat ++ String.mk ds

/-- Scientific layout of significant digits ds with decimal exponent t.
With padExp the exponent keeps at least two digits, as Go strconv
produces; without it the exponent is unpadded, as the JSON encoder
produces after trimming. -/
def fmtDigitsE (ds : List Char) (t : Int) (padExp : Bool) : String :=
  let head := String.mk (ds.take 1)
  let tail := ds.drop 1
  let mant := if tail = [] then head else head ++ "." ++ String.mk tail
  let eAbs := natDec t.natAbs
  let eTxt := if padExp && t.natAbs < 10 then "0" ++ eAbs else eAbs
  mant ++ "e" ++ (if t < 0 then "-" else "+") ++ eTxt

/-- Go fmt rendering of a finite binary64 value with the verb v: the
shortest decoding-faithful digit string, laid out in plain form for
decimal exponents in [-4, 6) and in scientific form otherwise (strconv
FormatFloat with format g and precision -1, shortest mode). -/
def fmtFloatShortest (m e : Int) : String :=
  if m = 0 then "0"
  else
    let sgn := if m < 0 then "-" else ""
    let cs := shortestDigits ((m.natAbs : Int)) e
    let ds := natDecAux (cs.1 + 1) cs.1
    let t := cs.2 + ((ds.length : Int) - 1)
    sgn ++ (if t < -4 ∨ 6 ≤ t then fmtDigitsE ds t true else fmtDigitsF ds t)

/-- Floating point rendering used by the Go JSON encoder: plain decimal
form unless the value is below 1e-6 or at least 1e21 in magnitude, in
which case the scientific form with an unpadded exponent is used. -/
def jsonFloat (m e : Int) : String :=
  if m = 0 then "0"
  else
    let sgn := if m < 0 then "-" else ""
    let cs := shortestDigits ((m.natAbs : Int)) e
    let ds := natDecAux (cs.1 + 1) cs.1
    let t := cs.2 + ((ds.length : Int) - 1)
    sgn ++ (if t < -6 ∨ 21 ≤ t then fmtDigitsE ds t false else fmtDigitsF ds t)

/-- Three-way comparison of characters by code point. -/
def charCmp (a b : Char) : Ordering :=
  if a.toNat < b.toNat then Ordering.lt
  else if b.toNat < a.toNat then Ordering.gt
  else Ordering.eq

/-- Lexicographic three-way comparison of character lists. For UTF-8
encoded text this agrees with the bytewise ordering Go applies to JSON
object keys, since UTF-8 byte order coincides with code point order. -/
def charListCmp : List Char → List Char → Ordering
  | [], [] => Ordering.eq
  | [], _ :: _ => Ordering.lt
  | _ :: _, [] => Ordering.gt
  | a :: as, b :: bs =>
    if charCmp a b = Ordering.eq then charListCmp as bs else charCmp a b

/-- Three-way comparison of strings. -/
def strCmp (s t : String) : Ordering := charListCmp s.data t.data

theorem charCmp_eq {a b : Char} (h : charCmp a b = Ordering.eq) : a = b := by
  unfold charCmp at h
  split at h
  · exact absurd h (by decide)
  · split at h
    · exact absurd h (by decide)
    · apply Char.ext
      apply UInt32.ext
      show a.toNat = b.toNat
      omega

theorem charCmp_self (a : Char) : charCmp a a = Ordering.eq := by
  unfold charCmp
  simp

theorem charCmp_swap {a b : Char} :
    charCmp a b = Ordering.lt ↔ charCmp b a = Ordering.gt := by
  unfold charCmp
  split <;> split <;> (simp_all; try omega)

theorem charCmp_lt_trans {a b c : Char} (hab : charCmp a b = Ordering.lt)
    (hbc : charCmp b c = Ordering.lt) : charCmp a c = Ordering.lt := by
  unfold charCmp at *
  split at hab <;> split at hbc <;> split <;> (simp_all; try omega)

theorem charListCmp_eq : ∀ {as bs : List Char},
    charListCmp as bs = Ordering.eq → as = bs := by
  intro as
  induction as with
  | nil =>
    intro bs h
    cases bs with
    | nil => rfl
    | cons b bs => simp [charListCmp] at h
  | cons a as ih =>
    intro bs h
    cases bs with
    | nil => simp [charListCmp] at h
    | cons b bs =>
      simp only [charListCmp] at h
      by_cases hab : charCmp a b = Ordering.eq
      · rw [if_pos hab] at h
        rw [charCmp_eq hab, ih h]
      · rw [if_neg hab] at h
        exact absurd h hab

theorem charListCmp_self : ∀ (as : List Char), charListCmp as as = Ordering.eq := by
  intro as
  induction as with
  | nil => rfl
  | cons a as ih => simp [charListCmp, charCmp_self, ih]

theorem charListCmp_swap : ∀ {as bs : List Char},
    charListCmp as bs = Ordering.lt ↔ charListCmp bs as = Ordering.gt := by
  intro as
  induction as with
  | nil =>
    intro bs
    cases bs with
    | nil => simp [charListCmp]
    | cons b bs => simp [charListCmp]
  | cons a as ih =>
    intro bs
    cases bs with
    | nil => simp [charListCmp]
    | cons b bs =>
      simp only [charListCmp]
      by_cases hab : charCmp a b = Ordering.eq
      · have hba : charCmp b a = Ordering.eq := by
          rw [← charCmp_eq hab]
          exact charCmp_self a
        rw [if_pos hab, if_pos hba]
        exact ih
      · have hba : charCmp b a ≠ Ordering.eq := by
          intro h
          exact hab (by rw [charCmp_eq h]; exact charCmp_self a)
        rw [if_neg hab, if_neg hba]
        exact charCmp_swap

theorem charListCmp_lt_trans : ∀ {as bs cs : List Char},
    charListCmp as bs = Ordering.lt → charListCmp bs cs = Ordering.lt →
    charListCmp as cs = Ordering.lt := by
  intro as
  induction as with
  | nil =>
    intro bs cs hab hbc
    cases bs with
    | nil => exact hbc
    | cons b bs =>
      cases cs with
      | nil => simp [charListCmp] at hbc
      | cons c cs => simp [charListCmp]
  | cons a as ih =>
    intro bs cs hab hbc
    cases bs with
    | nil => simp [charListCmp] at hab
    | cons b bs =>
      cases cs with
      | nil => simp [charListCmp] at hbc
      | cons c cs =>
        simp only [charListCmp] at hab hbc ⊢
        by_cases h1 : charCmp a b = Ordering.eq
        · rw [if_pos h1] at hab
          have hab2 := charCmp_eq h1
          subst hab2
          by_cases h2 : charCmp a c = Ordering.eq
          · rw [if_pos h2] at hbc
            rw [if_pos h2]
            exact ih hab hbc
          · rw [if_neg h2] at hbc
            rw [if_neg h2]
            exact hbc
        · rw [if_neg h1] at hab
          by_cases h2 : charCmp b c = Ordering.eq
          · have hbc2 := charCmp_eq h2
            subst hbc2
            rw [if_neg h1]
            exact hab
          · rw [if_neg h2] at hbc
            have h3 := charCmp_lt_trans hab hbc
            have h4 : charCmp a c ≠ Ordering.eq := by simp [h3]
            rw [if_neg h4]
            exact h3

theorem strCmp_eq {s t : String} (h : strCmp s t = Ordering.eq) : s = t := by
  cases s with
  | mk sd =>
    cases t with
    | mk td =>
      have := @charListCmp_eq sd td h
      rw [this]

theorem strCmp_swap {s t : String} :
    strCmp s t = Ordering.lt ↔ strCmp t s = Ordering.gt := charListCmp_swap

theorem strCmp_lt_trans {s t u : String} (h1 : strCmp s t = Ordering.lt)
    (h2 : strCmp t u = Ordering.lt) : strCmp s u = Ordering.lt :=
  charListCmp_lt_trans h1 h2

/-- Entry order used when a Go map is serialized to JSON: ascending key
order, as json.Marshal produces for map values. -/
def keyLe (p q : String × GoValue) : Prop := strCmp p.1 q.1 ≠ Ordering.gt

instance : DecidableRel keyLe :=
  fun p q => inferInstanceAs (Decidable (strCmp p.1 q.1 ≠ Ordering.gt))

/-- Strict key order between entries. -/
def keyLt (p q : String × GoValue) : Prop := strCmp p.1 q.1 = Ordering.lt

/-- Map entries arranged in ascending key order, the arrangement the Go
JSON encoder gives object members of a map value. -/
def sortByKey (l : List (String × GoValue)) : List (String × GoValue) :=
  List.insertionSort keyLe l

instance : IsTotal (String × GoValue) keyLe := by
  constructor
  intro p q
  by_cases h : strCmp p.1 q.1 = Ordering.gt
  · right
    have hlt : strCmp q.1 p.1 = Ordering.lt := strCmp_swap.mpr h
    unfold keyLe
    simp [hlt]
  · left
    exact h

instance : IsTrans (String × GoValue) keyLe := by
  constructor
  intro a b c h1 h2
  unfold keyLe at *
  rcases hab : strCmp a.1 b.1 with _ | _ | _
  · rcases hbc : strCmp b.1 c.1 with _ | _ | _
    · simp [strCmp_lt_trans hab hbc]
    · rw [← strCmp_eq hbc, hab]
      simp
    · exact absurd hbc h2
  · rw [strCmp_eq hab]
    exact h2
  · exact absurd hab h1

instance : IsAntisymm (String × GoValue) keyLt := by
  constructor
  intro a b h1 h2
  unfold keyLt at *
  have := strCmp_swap.mp h2
  rw [h1] at this
  exact absurd this (by decide)

theorem sortByKey_perm (l : List (String × GoValue)) :
    List.Perm (sortByKey l) l := List.perm_insertionSort _ _

theorem sortByKey_sorted (l : List (String × GoValue)) :
    List.Sorted keyLe (sortByKey l) := List.sorted_insertionSort _ _

theorem sorted_keyLe_keyLt {l : List (String × GoValue)}
    (hs : List.Sorted keyLe l) (hd : (l.map Prod.fst).Nodup) :
    List.Sorted keyLt l := by
  have hne : List.Pairwise (fun p q : String × GoValue => p.1 ≠ q.1) l :=
    List.pairwise_map.mp hd
  have hand := (hs : List.Pairwise keyLe l).and hne
  refine hand.imp ?_
  intro p q hpq
  obtain ⟨hle, hne⟩ := hpq
  unfold keyLe at hle
  unfold keyLt
  rcases h : strCmp p.1 q.1 with _ | _ | _
  · rfl
  · exact absurd (strCmp_eq h) hne
  · exact absurd h hle

/-- Uniqueness of the sorted arrangement: permuted entry lists with
distinct keys sort identically, so the serialized object text is
determined by the entry set alone. -/
theorem sortByKey_canon {l l' : List (String × GoValue)}
    (hp : List.Perm l l') (hd : (l.map Prod.fst).Nodup) :
    sortByKey l = sortByKey l' := by
  have hd2 : ((sortByKey l).map Prod.fst).Nodup :=
    (((sortByKey_perm l).map Prod.fst).nodup_iff).mpr hd
  have hdr : (l'.map Prod.fst).Nodup := ((hp.map Prod.fst).nodup_iff).mp hd
  have hd3 : ((sortByKey l').map Prod.fst).Nodup :=
    (((sortByKey_perm l').map Prod.fst).nodup_iff).mpr hdr
  apply List.eq_of_perm_of_sorted (r := keyLt)
  · exact (sortByKey_perm l).trans (hp.trans (sortByKey_perm l').symm)
  · exact sorted_keyLe_keyLt (sortByKey_sorted l) hd2
  · exact sorted_keyLe_keyLt (sortByKey_sorted l') hd3

/-- Lowercase hexadecimal digit character. -/
def hexChar (d : Nat) : Char :=
  if d < 10 then digitChar d else Char.ofNat (87 + d)

/-- Two-digit lowercase hexadecimal rendering of a byte value. -/
def hex2 (n : Nat) : String := String.mk [hexChar (n / 16), hexChar (n % 16)]

/-- JSON escaping of one character, as the Go encoder (with its default
HTML escaping) produces inside string literals. -/
def jsonEscapeChar (c : Char) : String :=
  if c = '"' then "\\\""
  else if c = '\\' then "\\\\"
  else if c = '\n' then "\\n"
  else if c = '\r' then "\\r"
  else if c = '\t' then "\\t"
  else if c.toNat < 32 then "\\u00" ++ hex2 c.toNat
  else if c = '<' then "\\u003c"
  else if c = '>' then "\\u003e"
  else if c = '&' then "\\u0026"
  else if c.toNat = 8232 then "\\u2028"
  else if c.toNat = 8233 then "\\u2029"
  else String.singleton c

/-- JSON string literal for s. -/
def jsonQuote (s : String) : String :=
  "\"" ++ String.join (s.data.map jsonEscapeChar) ++ "\""

/-- Sequence a fallible conversion over a list, stopping at the first
failure: the collecting loop shape the source uses. -/
def optionTraverse {α β : Type} (f : α → Option β) : List α → Option (List β)
  | [] => some []
  | x :: xs =>
    match f x with
    | none => none
    | some y => (optionTraverse f xs).map (fun ys => y :: ys)

/-- JSON rendering of a decoded value, with the encoding the source
relies on through json.Marshal: null, booleans, decimal integers, ES6
style floats, escaped strings, arrays, and objects whose map entries
appear in ascending key order. Returns none where json.Marshal returns
an error (an interface-keyed map is an unsupported type for it).
Message values are serialized as objects of their fields in declaration
order. The fuel argument bounds nesting depth only; the depth used by
jsonMarshal exceeds any value in this development. -/
def jsonEncodeF : Nat → GoValue → Option String
  | 0, _ => none
  | fuel + 1, v =>
    match v with
    | vNil => some "null"
    | vBool b => some (if b then "true" else "false")
    | vInt n => some (intDec n)
    | vFloat m e => some (jsonFloat m e)
    | vString s => some (jsonQuote s)
    | vList xs =>
      (optionTraverse (jsonEncodeF fuel) xs).map
        (fun ts => "[" ++ String.intercalate "," ts ++ "]")
    | vStrMap es =>
      (optionTraverse
          (fun p => (jsonEncodeF fuel p.2).map (fun t => jsonQuote p.1 ++ ":" ++ t))
          (sortByKey es)).map
        (fun ts => "\x7b" ++ String.intercalate "," ts ++ "\x7d")
    | vAnyMap _ => none
    | vMessage fs =>
      (optionTraverse
          (fun p => (jsonEncodeF fuel p.2).map (fun t => jsonQuote p.1 ++ ":" ++ t))
          fs).map
        (fun ts => "\x7b" ++ String.intercalate "," ts ++ "\x7d")

/-- Depth budget below the jsonMarshal entry level. -/
def jsonDepth : Nat := 999

/-- json.Marshal of a decoded value. -/
def jsonMarshal (v : GoValue) : Option String := jsonEncodeF (jsonDepth + 1) v

/-- Go fmt rendering with the verb v for the values reaching the numeric
and boolean converter. Scalars follow the documented fmt forms; the
composite renderings (space separated bracket forms for slices and maps,
field list for messages) are approximate, and no composite value can
reach this converter from a boolean, integer or floating point typed
field of a well-formed message. Fuel bounds nesting depth only. -/
def sprintfVF : Nat → GoValue → String
  | 0, _ => ""
  | fuel + 1, v =>
    match v with
    | vNil => "<nil>"
    | vBool b => if b then "true" else "false"
    | vInt n => intDec n
    | vFloat m e => fmtFloatShortest m e
    | vString s => s
    | vList xs => "[" ++ String.intercalate " " (xs.map (sprintfVF fuel)) ++ "]"
    | vStrMap es =>
      "map[" ++ String.intercalate " "
        ((sortByKey es).map (fun p => p.1 ++ ":" ++ sprintfVF fuel p.2)) ++ "]"
    | vAnyMap es =>
      "map[" ++ String.intercalate " "
        (es.map (fun p => sprintfVF fuel p.1 ++ ":" ++ sprintfVF fuel p.2)) ++ "]"
    | vMessage fs =>
      String.intercalate " " (fs.map (fun p => p.1 ++ ":" ++ sprintfVF fuel p.2))

/-- fmt.Sprintf with the verb v applied to one decoded value. -/
def sprintfV (v : GoValue) : String := sprintfVF 1000 v

/-- Wire types of proto field descriptors, the
descriptor.FieldDescriptorProto_TYPE values. The enumeration is closed:
these eighteen are all the values the descriptor type carries, so the
default arm of the source switch is unreachable. -/
inductive FieldType where
  | tDouble | tFloat | tInt64 | tUint64 | tInt32 | tFixed64 | tFixed32
  | tBool | tString | tGroup | tMessage | tBytes | tUint32 | tEnum
  | tSfixed32 | tSfixed64 | tSint32 | tSint64
deriving DecidableEq

/-- The slice of a proto field descriptor the adapter consults: name,
wire type, and the cardinality flags protoreflect exposes through
IsRepeated and IsMap. A map field reports repeated as well, and its wire
type is message (the synthetic entry type), so a bytes or group typed
field is never a map. -/
structure FieldDescr where
  name : String
  typ : FieldType
  isRepeated : Bool
  isMap : Bool
deriving DecidableEq

/-- The slice of a swagger spec.Parameter the adapter consults: the
name, the location field In, and the declared enum value list (a list of
interface values in the spec library). -/
structure Param where
  name : String
  loc : String
  enum : List GoValue

/-- Outcome of applying a converter closure: some s is the returned
string; none models a Go runtime panic (a failed type assertion or an
out-of-range slice index), which aborts the call abnormally. -/
abbrev Converter := GoValue → Option String

/-- Go type assertion value.(string): the string when the dynamic type
is string, none (a panic in single-result form) otherwise. -/
def goAsString : GoValue → Option String
  | vString s => some s
  | _ => none

/-- The key conversion loop inside the map converter: collects the
string-keyed entries, stopping with none at the first non-string key.
The source accumulates into a fresh Go map, whose entries are exactly
these since a source map holds no duplicate keys. -/
def collectStringKeys : List (GoValue × GoValue) → Option (List (String × GoValue))
  | [] => some []
  | kv :: rest =>
    match goAsString kv.1 with
    | some k => (collectStringKeys rest).map (fun l => (k, kv.2) :: l)
    | none => none

/-- The closure getStringConverter builds for map fields: expects a
string-keyed map value and serializes it with json.Marshal. A non-map
value, a non-string key, or a marshal failure degrade to the empty
string with a logged error or warning; the closure never fails. -/
def mapEntriesToString (mapValue : List (GoValue × GoValue)) : Option String :=
  match collectStringKeys mapValue with
  | none => some ""
  | some convertedValue => some ((jsonMarshal (vStrMap convertedValue)).getD "")

/-- Dispatch of the map converter on the asserted map shape; see
mapEntriesToString for the body of the loop and serialization. -/
def mapValueToString (value : GoValue) : Option String :=
  match value with
  | vAnyMap mapValue => mapEntriesToString mapValue
  | _ => some ""

/-- The closure for message typed fields: json.Marshal of the whole
value; a marshal error only logs a warning and the nil byte slice still
converts to the empty string. -/
def messageValueToString (value : GoValue) : Option String :=
  some ((jsonMarshal value).getD "")

/-- The closure for enum fields: the decoded int32 ordinal indexes the
externally supplied parameter enum list. A non-integer value fails the
int32 type assertion, a panic; an ordinal at or above the list length is
caught and degrades to the empty string; a negative ordinal passes that
check and reaches the slice index expression out of range, a panic; an
indexed element that is not a string degrades to the empty string. -/
def enumValueToString (param : Param) (value : GoValue) : Option String :=
  match value with
  | vInt rawValue =>
    if (param.enum.length : Int) ≤ rawValue then some ""
    else if rawValue < 0 then none
    else
      match param.enum.get? rawValue.toNat with
      | some el =>
        match goAsString el with
        | some enumValue => some enumValue
        | none => some ""
      | none => none
  | _ => none

/-- Returns a serializer function for a given proto field and parameter
pair (getStringConverter in the source): the map check runs first and
ignores the wire type; then the wire type dispatches. Errors are
construction-time; the returned closure runs per call. -/
def getStringConverter (fieldDesc : FieldDescr) (param : Param) :
    Except String Converter :=
  if fieldDesc.isMap then Except.ok mapValueToString
  else
    match fieldDesc.typ with
    | FieldType.tMessage => Except.ok messageValueToString
    | FieldType.tBool | FieldType.tInt64 | FieldType.tUint64
    | FieldType.tInt32 | FieldType.tFixed64 | FieldType.tFixed32
    | FieldType.tUint32 | FieldType.tSfixed32 | FieldType.tSfixed64
    | FieldType.tSint32 | FieldType.tSint64
    | FieldType.tDouble | FieldType.tFloat =>
      Except.ok (fun value => some (sprintfV value))
    | FieldType.tString => Except.ok goAsString
    | FieldType.tGroup => Except.error "got proto2-only type group"
    | FieldType.tBytes => Except.error "bytes not implemented"
    | FieldType.tEnum => Except.ok (enumValueToString param)

/-- Decoded dynamic message: field values keyed by field name. -/
structure DynamicMessage where
  fields : List (String × GoValue)

/-- Zero value protoreflect reports for an unset field. -/
def defaultGoValue (fd : FieldDescr) : GoValue :=
  if fd.isMap then vAnyMap []
  else if fd.isRepeated then vList []
  else
    match fd.typ with
    | FieldType.tBool => vBool false
    | FieldType.tString => vString ""
    | FieldType.tDouble => vFloat 0 0
    | FieldType.tFloat => vFloat 0 0
    | FieldType.tMessage => vNil
    | FieldType.tGroup => vNil
    | FieldType.tBytes => vNil
    | _ => vInt 0

/-- Name-keyed lookup in a field list. -/
def lookupField : List (String × GoValue) → String → Option GoValue
  | [], _ => none
  | (k, v) :: rest, name => if k = name then some v else lookupField rest name

/-- GetField on a dynamic message: the stored value, or the zero value
of the field type when the field is unset. -/
def getField (msg : DynamicMessage) (fd : FieldDescr) : GoValue :=
  (lookupField msg.fields fd.name).getD (defaultGoValue fd)

/-- Converts a single or repeated message value into the list of
serialized strings for the given field descriptor (convertValues in the
source): a repeated non-map field is cast to a slice and exploded
element-wise in order; everything else, maps included, is wrapped as one
value. Returns none where a Go panic occurs: the slice cast failing, or
the converter panicking on an element. -/
def convertValues (message : DynamicMessage) (fieldDesc : FieldDescr)
    (conv : Converter) : Option (List String) :=
  let rawValue := getField message fieldDesc
  let values : Option (List GoValue) :=
    if fieldDesc.isRepeated && !fieldDesc.isMap then
      match rawValue with
      | vList xs => some xs
      | _ => none
    else some [rawValue]
  match values with
  | none => none
  | some vs => optionTraverse conv vs

/-- The outbound request state mutated through the go-openapi
ClientRequest setters: query, header and path parameters and the body
payload. The body field holds the contents of the reader handed to
SetBodyParam. -/
structure ClientRequest where
  queryParams : List (String × List String)
  headerParams : List (String × List String)
  pathParams : List (String × String)
  body : Option String
deriving DecidableEq

/-- A fresh outbound request. -/
def emptyRequest : ClientRequest := ⟨[], [], [], none⟩

/-- Replace or append one keyed entry. -/
def setAssoc {α : Type} : List (String × α) → String → α → List (String × α)
  | [], k, v => [(k, v)]
  | (k2, v2) :: rest, k, v =>
    if k2 = k then (k, v) :: rest else (k2, v2) :: setAssoc rest k v

/-- request.SetQueryParam: all supplied values are attached under the
parameter name. -/
def setQueryParam (request : ClientRequest) (name : String)
    (values : List String) : ClientRequest :=
  { request with queryParams := setAssoc request.queryParams name values }

/-- request.SetHeaderParam: all supplied values are attached under the
parameter name. -/
def setHeaderParam (request : ClientRequest) (name : String)
    (values : List String) : ClientRequest :=
  { request with headerParams := setAssoc request.headerParams name values }

/-- request.SetPathParam: a single value for the path template slot. -/
def setPathParam (request : ClientRequest) (name : String)
    (value : String) : ClientRequest :=
  { request with pathParams := setAssoc request.pathParams name value }

/-- request.SetBodyParam with strings.NewReader(v): the body payload
becomes exactly v, with no further encoding. -/
def setBodyParam (request : ClientRequest) (payload : String) : ClientRequest :=
  { request with body := some payload }

/-- A parameter writer: already-serialized values plus the request under
construction. The outer Option models a Go panic; the Except layer is
the error return value. -/
abbrev ParamWriter :=
  List String → ClientRequest → Option (Except String ClientRequest)

/-- Returns a function which writes the given parameter to a request by
its declared location (getParamWriter in the source). The path and body
writers index values[0] before any length check, so an empty value list
is an out-of-range index, a panic; extra values are dropped with only a
logged warning. Unsupported and unknown locations fail at construction
time. -/
def getParamWriter (param : Param) : Except String ParamWriter :=
  if param.loc = "query" then
    Except.ok (fun values request =>
      some (Except.ok (setQueryParam request param.name values)))
  else if param.loc = "header" then
    Except.ok (fun values request =>
      some (Except.ok (setHeaderParam request param.name values)))
  else if param.loc = "path" then
    Except.ok (fun values request =>
      match values with
      | [] => none
      | v :: _ => some (Except.ok (setPathParam request param.name v)))
  else if param.loc = "body" then
    Except.ok (fun values request =>
      match values with
      | [] => none
      | v :: _ => some (Except.ok (setBodyParam request v)))
  else if param.loc = "formData" then
    Except.error "formData parameters are not supported"
  else if param.loc = "cookie" then
    Except.error "swagger 3.0 cookie parameters are not supported"
  else
    Except.error ("ERROR: Unknown parameter location " ++ param.loc ++
      " for parameter " ++ param.name)

/-- A per-endpoint writer composed at construction: decoded message in,
request out (swaggerParamWriter in the source). -/
abbrev SwaggerParamWriter :=
  DynamicMessage → ClientRequest → Option (Except String ClientRequest)

/-- The composed closure newPathWrapper builds for each parameter:
convert, then place. -/
def composeParamWriter (fieldDesc : FieldDescr) (conv : Converter)
    (writer : ParamWriter) : SwaggerParamWriter :=
  fun message request =>
    match convertValues message fieldDesc conv with
    | none => none
    | some stringValues => writer stringValues request

/-- The compiled wrapper for one swagger operation (operationAdapter in
the source, restricted to what the embedded behavior consults; the
shared HTTP and swagger clients live behind the transport argument of
handleGRPCRequest). -/
structure OperationAdapter where
  httpMethod : String
  swaggerPath : String
  paramWriters : List SwaggerParamWriter

/-- The slice of a proto message descriptor the adapter consults: the
named field descriptors (unique names in a well-formed descriptor). -/
structure MessageDescr where
  fields : List FieldDescr

/-- FindFieldByName on the input message descriptor. -/
def findFieldByName (md : MessageDescr) (name : String) : Option FieldDescr :=
  md.fields.find? (fun fd => fd.name == name)

/-- The field name normalization in newPathWrapper: strings.Replace with
count -1 replaces every occurrence of the hyphen, and with a
single-character pattern that is exactly a character map. -/
def normalizeParamName (s : String) : String :=
  String.mk (s.data.map (fun c => if c = '-' then '_' else c))

/-- The parameter loop of newPathWrapper: for each parameter in
iteration order, resolve the bound proto field by the hyphen-normalized
name, then the converter, then the writer, composing one writer closure
per parameter; the first failure aborts construction of this endpoint
with that error. -/
def buildParamWriters (inputProtoType : MessageDescr) :
    List Param → Except String (List SwaggerParamWriter)
  | [] => Except.ok []
  | param :: rest =>
    match findFieldByName inputProtoType (normalizeParamName param.name) with
    | none =>
      Except.error ("Could not find proto field named " ++ normalizeParamName param.name)
    | some fieldDesc =>
      match getStringConverter fieldDesc param with
      | Except.error e => Except.error e
      | Except.ok stringConverter =>
        match getParamWriter param with
        | Except.error e => Except.error e
        | Except.ok paramWriter =>
          match buildParamWriters inputProtoType rest with
          | Except.error e => Except.error e
          | Except.ok ws =>
            Except.ok (composeParamWriter fieldDesc stringConverter paramWriter :: ws)

/-- Construct a new endpoint wrapper from swagger and proto method
descriptions (newPathWrapper in the source). The source takes the
parameters as a Go map whose iteration order is arbitrary, so the model
receives them as an arbitrarily ordered list. -/
def newPathWrapper (httpMethod swaggerPath : String) (parameters : List Param)
    (inputProtoType : MessageDescr) : Except String OperationAdapter :=
  match buildParamWriters inputProtoType parameters with
  | Except.error e => Except.error e
  | Except.ok ws => Except.ok ⟨httpMethod, swaggerPath, ws⟩

/-- The loop of the serializer getRequestWriter returns: run each
parameter writer in construction order against the message and the
request; the first error or panic stops the loop. -/
def runWriters (msg : DynamicMessage) :
    List SwaggerParamWriter → ClientRequest → Option (Except String ClientRequest)
  | [], request => some (Except.ok request)
  | w :: ws, request =>
    match w msg request with
    | none => none
    | some (Except.error e) => some (Except.error e)
    | some (Except.ok request2) => runWriters msg ws request2

/-- getRequestWriter in the source: the request serializer for one
decoded message. -/
def getRequestWriter (p : OperationAdapter) (msg : DynamicMessage)
    (request : ClientRequest) : Option (Except String ClientRequest) :=
  runWriters msg p.paramWriters request

/-- Outcome of one proxied call: submitted is the request the transport
received, if any; result none models a panic, and result some carries
the error or the response message sent back on the stream. -/
structure CallOutcome where
  submitted : Option ClientRequest
  result : Option (Except String DynamicMessage)

/-- Handle one proxied gRPC call (handleGRPCRequest in the source). The
recv argument is the outcome of stream.RecvMsg on the inbound stream.
The transport argument models the go-openapi runtime Submit collaborator
by its contract: Submit builds the outbound request by running the
operation Params writer on a fresh request, performs the HTTP exchange
only when that writer succeeds, and decodes the response body through
ReadResponse; transport abstracts the exchange plus decode as a function
from the assembled request to a response message or error. A decode
failure aborts before any request assembly; a writer error or panic
aborts before anything reaches the transport. -/
def handleGRPCRequest (p : OperationAdapter)
    (recv : Except String DynamicMessage)
    (transport : ClientRequest → Except String DynamicMessage) : CallOutcome :=
  match recv with
  | Except.error e => ⟨none, some (Except.error e)⟩
  | Except.ok protoIn =>
    match getRequestWriter p protoIn emptyRequest with
    | none => ⟨none, none⟩
    | some (Except.error e) => ⟨none, some (Except.error e)⟩
    | some (Except.ok request) =>
      match transport request with
      | Except.error e => ⟨some request, some (Except.error e)⟩
      | Except.ok resultMessage => ⟨some request, some (Except.ok resultMessage)⟩

/-- Apply the converter a construction returned, visible only when
construction succeeded: none when the converter lookup failed with an
error, some (f value) when it returned the closure f. -/
def applyConverter (r : Except String Converter) (value : GoValue) :
    Option (Option String) :=
  match r with
  | Except.error _ => none
  | Except.ok f => some (f value)

/-- Apply the parameter writer a construction returned, in the same
shape as applyConverter. -/
def applyParamWriter (r : Except String ParamWriter) (values : List String)
    (request : ClientRequest) : Option (Option (Except String ClientRequest)) :=
  match r with
  | Except.error _ => none
  | Except.ok w => some (w values request)

/-- Whether a construction outcome is an error. -/
def exceptIsError {ε α : Type} : Except ε α → Bool
  | Except.error _ => true
  | Except.ok _ => false

theorem optionTraverse_total {α β : Type} (f : α → β) (xs : List α) :
    optionTraverse (fun v => some (f v)) xs = some (xs.map f) := by
  induction xs with
  | nil => rfl
  | cons x xs ih => simp [optionTraverse, ih]

theorem goAsString_eq_some {v : GoValue} {k : String}
    (h : goAsString v = some k) : v = vString k := by
  cases v <;> simp [goAsString] at h
  rw [h]

theorem mapValueToString_anyMap (entries : List (GoValue × GoValue)) :
    mapValueToString (vAnyMap entries) = mapEntriesToString entries := rfl

theorem mapEntriesToString_collect_none {entries : List (GoValue × GoValue)}
    (h : collectStringKeys entries = none) :
    mapEntriesToString entries = some "" := by
  unfold mapEntriesToString
  rw [h]

theorem mapEntriesToString_collect_some {entries : List (GoValue × GoValue)}
    {cv : List (String × GoValue)} (h : collectStringKeys entries = some cv) :
    mapEntriesToString entries = some ((jsonMarshal (vStrMap cv)).getD "") := by
  unfold mapEntriesToString
  rw [h]

/-- Entries whose keys all pass the string assertion collect to the
entry list with the keys unwrapped. -/
theorem collectStringKeys_all {entries : List (GoValue × GoValue)}
    (h : ∀ kv ∈ entries, ∃ k, goAsString kv.1 = some k) :
    collectStringKeys entries =
      some (entries.map (fun kv => ((goAsString kv.1).getD "", kv.2))) := by
  induction entries with
  | nil => rfl
  | cons kv rest ih =>
    obtain ⟨k, hk⟩ := h kv (List.mem_cons_self kv rest)
    have hrest := ih (fun kv2 hm => h kv2 (List.mem_cons_of_mem kv hm))
    unfold collectStringKeys
    rw [hk, hrest]
    simp [hk]

/-- A single non-string key anywhere makes the collection loop stop with
none. -/
theorem collectStringKeys_none {entries : List (GoValue × GoValue)}
    (h : ∃ kv ∈ entries, goAsString kv.1 = none) :
    collectStringKeys entries = none := by
  induction entries with
  | nil => simp at h
  | cons kv rest ih =>
    obtain ⟨kv2, hm, hk⟩ := h
    rcases List.mem_cons.mp hm with heq | hmem
    · subst heq
      unfold collectStringKeys
      rw [hk]
    · unfold collectStringKeys
      cases hg : goAsString kv.1 with
      | none => rfl
      | some k => rw [ih ⟨kv2, hmem, hk⟩]; rfl

/-- The map converter degrades to the empty string whenever some key is
not a string, for any entry order, instead of failing. -/
theorem mapValueToString_nonstring_key {entries : List (GoValue × GoValue)}
    (h : ∃ kv ∈ entries, goAsString kv.1 = none) :
    mapValueToString (vAnyMap entries) = some "" := by
  rw [mapValueToString_anyMap]
  exact mapEntriesToString_collect_none (collectStringKeys_none h)

theorem jsonEncodeF_strMap (fuel : Nat) (es : List (String × GoValue)) :
    jsonEncodeF (fuel + 1) (vStrMap es) =
      (optionTraverse
          (fun p => (jsonEncodeF fuel p.2).map (fun t => jsonQuote p.1 ++ ":" ++ t))
          (sortByKey es)).map
        (fun ts => "\x7b" ++ String.intercalate "," ts ++ "\x7d") := rfl

/-- Output of the map converter depends only on the entry set: permuting
the (distinct-keyed) entries of a map, as Go map iteration may, leaves
the serialized text unchanged. -/
theorem mapValueToString_perm {l l2 : List (GoValue × GoValue)}
    (hp : List.Perm l l2) (hd : (l.map Prod.fst).Nodup) :
    mapValueToString (vAnyMap l) = mapValueToString (vAnyMap l2) := by
  by_cases hall : ∀ kv ∈ l, ∃ k, goAsString kv.1 = some k
  · have hall2 : ∀ kv ∈ l2, ∃ k, goAsString kv.1 = some k :=
      fun kv hm => hall kv (hp.mem_iff.mpr hm)
    have hc1 := collectStringKeys_all hall
    have hc2 := collectStringKeys_all hall2
    have hperm : List.Perm (l.map (fun kv => ((goAsString kv.1).getD "", kv.2)))
        (l2.map (fun kv => ((goAsString kv.1).getD "", kv.2))) :=
      hp.map _
    have hnodup : ((l.map (fun kv => ((goAsString kv.1).getD "", kv.2))).map
        Prod.fst).Nodup := by
      rw [List.map_map]
      have hcomp : (Prod.fst ∘ fun kv : GoValue × GoValue =>
          ((goAsString kv.1).getD "", kv.2)) =
          (fun v : GoValue => (goAsString v).getD "") ∘ Prod.fst := rfl
      rw [hcomp, ← List.map_map]
      apply List.Nodup.map_on ?_ hd
      intro x hx y hy hxy
      obtain ⟨kvx, hkvx, hfx⟩ := List.mem_map.mp hx
      obtain ⟨kvy, hkvy, hfy⟩ := List.mem_map.mp hy
      obtain ⟨kx, hkx⟩ := hall kvx hkvx
      obtain ⟨ky, hky⟩ := hall kvy hkvy
      rw [← hfx, ← hfy] at hxy ⊢
      rw [goAsString_eq_some hkx, goAsString_eq_some hky]
      rw [goAsString_eq_some hkx, goAsString_eq_some hky] at hxy
      simpa using hxy
    have hsort := sortByKey_canon hperm hnodup
    rw [mapValueToString_anyMap, mapValueToString_anyMap,
      mapEntriesToString_collect_some hc1, mapEntriesToString_collect_some hc2]
    unfold jsonMarshal
    rw [jsonEncodeF_strMap, jsonEncodeF_strMap, hsort]
  · push_neg at hall
    obtain ⟨kv, hm, hk⟩ := hall
    have hnone : goAsString kv.1 = none := by
      cases hg : goAsString kv.1 with
      | none => rfl
      | some k => exact absurd hg (hk k)
    rw [mapValueToString_nonstring_key ⟨kv, hm, hnone⟩,
      mapValueToString_nonstring_key ⟨kv, hp.mem_iff.mp hm, hnone⟩]

theorem applyConverter_ok (f : Converter) (v : GoValue) :
    applyConverter (Except.ok f) v = some (f v) := rfl

theorem applyParamWriter_ok (w : ParamWriter) (values : List String)
    (request : ClientRequest) :
    applyParamWriter (Except.ok w) values request = some (w values request) := rfl

/-- Writers already run successfully stay run: the loop continues after a
successful prefix from the request it produced. -/
theorem runWriters_append_ok (msg : DynamicMessage)
    (ws1 ws2 : List SwaggerParamWriter) (req r1 : ClientRequest)
    (h : runWriters msg ws1 req = some (Except.ok r1)) :
    runWriters msg (ws1 ++ ws2) req = runWriters msg ws2 r1 := by
  have runWriters_cons : ∀ (w : SwaggerParamWriter) (ws : List SwaggerParamWriter)
      (request : ClientRequest),
      runWriters msg (w :: ws) request =
        match w msg request with
        | none => none
        | some (Except.error e) => some (Except.error e)
        | some (Except.ok request2) => runWriters msg ws request2 :=
    fun w ws request => rfl
  induction ws1 generalizing req with
  | nil =>
    unfold runWriters at h
    simp only [Option.some.injEq, Except.ok.injEq] at h
    subst h
    rfl
  | cons w ws ih =>
    unfold runWriters at h
    cases hw : w msg req with
    | none => rw [hw] at h; simp at h
    | some r =>
      cases r with
      | error e => rw [hw] at h; simp at h
      | ok req2 =>
        rw [hw] at h
        rw [List.cons_append, runWriters_cons, hw]
        exact ih req2 h

theorem buildParamWriters_found {inputProtoType : MessageDescr} {q : Param}
    {rest : List Param} {fdq : FieldDescr}
    (hf : findFieldByName inputProtoType (normalizeParamName q.name) = some fdq) :
    buildParamWriters inputProtoType (q :: rest) =
      match getStringConverter fdq q with
      | Except.error e => Except.error e
      | Except.ok stringConverter =>
        match getParamWriter q with
        | Except.error e => Except.error e
        | Except.ok paramWriter =>
          match buildParamWriters inputProtoType rest with
          | Except.error e => Except.error e
          | Except.ok ws =>
            Except.ok (composeParamWriter fdq stringConverter paramWriter :: ws) := by
  conv_lhs => unfold buildParamWriters
  rw [hf]

/-- Any parameter whose normalized name resolves to no field makes the
construction loop fail, wherever it sits in the list. -/
theorem buildParamWriters_unresolved {inputProtoType : MessageDescr} :
    ∀ {parameters : List Param} {param : Param},
    param ∈ parameters →
    findFieldByName inputProtoType (normalizeParamName param.name) = none →
    exceptIsError (buildParamWriters inputProtoType parameters) = true := by
  intro parameters
  induction parameters with
  | nil =>
    intro p hm hfind
    simp at hm
  | cons q rest ih =>
    intro p hm hfind
    rcases List.mem_cons.mp hm with heq | hmem
    · subst heq
      unfold buildParamWriters
      rw [hfind]
      rfl
    · cases hf : findFieldByName inputProtoType (normalizeParamName q.name) with
      | none =>
        unfold buildParamWriters
        rw [hf]
        rfl
      | some fdq =>
        rw [buildParamWriters_found hf]
        cases hc : getStringConverter fdq q with
        | error e => rfl
        | ok conv =>
          cases hw : getParamWriter q with
          | error e => rfl
          | ok wr =>
            have hrest := ih hmem hfind
            cases hb : buildParamWriters inputProtoType rest with
            | error e => rfl
            | ok ws =>
              rw [hb] at hrest
              simp [exceptIsError] at hrest

/-- An unresolvable parameter anywhere in the list fails endpoint
construction: no adapter is produced. -/
theorem newPathWrapper_unresolved {httpMethod swaggerPath : String}
    {parameters : List Param} {inputProtoType : MessageDescr} {param : Param}
    (hm : param ∈ parameters)
    (hfind : findFieldByName inputProtoType (normalizeParamName param.name) = none) :
    exceptIsError (newPathWrapper httpMethod swaggerPath parameters inputProtoType)
      = true := by
  have h := buildParamWriters_unresolved hm hfind
  unfold newPathWrapper
  cases hb : buildParamWriters inputProtoType parameters with
  | error e => rfl
  | ok ws =>
    rw [hb] at h
    simp [exceptIsError] at h

/-- Enum field fixture matching the test proto. -/
def enumFd : FieldDescr := ⟨"enumValue", FieldType.tEnum, false, false⟩

/-- Enum parameter with the externally declared value list. -/
def enumParam : Param := ⟨"enumValue", "query", [vString "first", vString "second"]⟩

/-- Boolean field fixture. -/
def boolFd : FieldDescr := ⟨"boolValue", FieldType.tBool, false, false⟩

/-- Thirty-two bit integer field fixture. -/
def int32Fd : FieldDescr := ⟨"int32Value", FieldType.tInt32, false, false⟩

/-- Sixty-four bit integer field fixture. -/
def int64Fd : FieldDescr := ⟨"int64Value", FieldType.tInt64, false, false⟩

/-- Double field fixture. -/
def doubleFd : FieldDescr := ⟨"doubleValue", FieldType.tDouble, false, false⟩

/-- Map field fixture: a map field carries the message wire type of its
entry type and reports both repeated and map. -/
def mapFd : FieldDescr := ⟨"mapValue", FieldType.tMessage, true, true⟩

/-- A parameter with no enum list. -/
def plainParam : Param := ⟨"p", "query", []⟩

/-- The binary64 value closest to 3.34, as decoded from the JSON text
3.34: mantissa and binary exponent. -/
def double334 : Int × Int := (7521011377708728, -51)

/-- Claim C1: the enum converter returns the indexed enum string for an
in-range ordinal and degrades to the empty string for a too-large
ordinal, but a negative ordinal passes the only range check in the
source and the slice index expression panics: construction succeeds
(outer some) and the conversion aborts the call (inner none) instead of
returning the empty string. -/
theorem c1_enum_ordinal_conversion :
    applyConverter (getStringConverter enumFd enumParam) (vInt 1) = some (some "second")
  ∧ applyConverter (getStringConverter enumFd enumParam) (vInt 2) = some (some "")
  ∧ applyConverter (getStringConverter enumFd enumParam) (vInt (-1)) = some none := by
  refine ⟨?_, ?_, ?_⟩ <;> decide

/-- Claim C2, counterexample: a map-field converter given a mapping with
a non-string key does not fail: it successfully returns the empty
string. -/
theorem c2_counterexample_nonstring_key :
    applyConverter (getStringConverter mapFd plainParam) (vAnyMap [(vInt 1, vInt 2)])
      = some (some "") := by decide

/-- Claim C2, amended: for every map-typed field, the converter treats
the decoded value as a string-keyed mapping, and when any key of the
mapping is a non-string value it degrades to the empty string with a
logged error rather than failing. -/
theorem c2_map_nonstring_key_degrades (fd : FieldDescr) (p : Param)
    (entries : List (GoValue × GoValue)) (hmap : fd.isMap = true)
    (hbad : ∃ kv ∈ entries, goAsString kv.1 = none) :
    applyConverter (getStringConverter fd p) (vAnyMap entries) = some (some "") := by
  unfold getStringConverter
  rw [if_pos hmap, applyConverter_ok, mapValueToString_nonstring_key hbad]

/-- Witness for the amended claim C2 at a concrete input. -/
theorem c2_witness :
    mapFd.isMap = true
  ∧ (∃ kv ∈ [((vInt 1 : GoValue), (vInt 2 : GoValue))], goAsString kv.1 = none)
  ∧ applyConverter (getStringConverter mapFd plainParam) (vAnyMap [(vInt 1, vInt 2)])
      = some (some "") :=
  ⟨rfl, ⟨(vInt 1, vInt 2), List.mem_singleton.mpr rfl, rfl⟩,
    c2_map_nonstring_key_degrades mapFd plainParam [(vInt 1, vInt 2)] rfl
      ⟨(vInt 1, vInt 2), List.mem_singleton.mpr rfl, rfl⟩⟩

/-- Claim C3: extraction explodes a repeated non-map field into one
converted string per decoded element in the original order, and wraps
everything else, maps included, as one value converted once. -/
theorem c3_extraction_cardinality (message : DynamicMessage) (fd : FieldDescr)
    (f : GoValue → String) :
    (∀ xs : List GoValue, fd.isRepeated = true → fd.isMap = false →
      getField message fd = vList xs →
      convertValues message fd (fun v => some (f v)) = some (xs.map f))
  ∧ (fd.isRepeated = false ∨ fd.isMap = true →
      convertValues message fd (fun v => some (f v))
        = some [f (getField message fd)]) := by
  constructor
  · intro xs hrep hmap hget
    unfold convertValues
    rw [hrep, hmap, hget]
    simp only [Bool.not_false, Bool.and_self, if_true]
    exact optionTraverse_total f xs
  · intro h
    unfold convertValues
    rcases h with h | h
    · rw [h]
      simp only [Bool.false_and, if_false]
      rfl
    · rw [h]
      simp only [Bool.not_true, Bool.and_false, if_false]
      rfl

/-- Witness for claim C3: a three-element repeated string field extracts
to its three strings in order, and a singular string field extracts to
exactly one string. -/
theorem c3_witness :
    convertValues ⟨[("repeatedValue", vList [vString "foo", vString "bar", vString "gaz"])]⟩
        ⟨"repeatedValue", FieldType.tString, true, false⟩
        (fun v => some (sprintfV v)) = some ["foo", "bar", "gaz"]
  ∧ convertValues ⟨[("singleValue", vString "foo")]⟩
        ⟨"singleValue", FieldType.tString, false, false⟩
        (fun v => some (sprintfV v)) = some ["foo"] :=
  ⟨(c3_extraction_cardinality _ _ _).1 [vString "foo", vString "bar", vString "gaz"]
      rfl rfl rfl,
    (c3_extraction_cardinality _ _ _).2 (Or.inl rfl)⟩

/-- Claim C4: given at least one value, the path placer writes only the
first value to the request path parameter and drops every excess value
without failing, and the body placer writes exactly the first value as
the literal body payload without re-encoding; both succeed whatever the
excess. -/
theorem c4_path_body_first_value (nm v : String) (rest : List String)
    (request : ClientRequest) :
    applyParamWriter (getParamWriter ⟨nm, "path", []⟩) (v :: rest) request
      = some (some (Except.ok (setPathParam request nm v)))
  ∧ applyParamWriter (getParamWriter ⟨nm, "body", []⟩) (v :: rest) request
      = some (some (Except.ok (setBodyParam request v))) :=
  ⟨rfl, rfl⟩

/-- Claim C10: the path and body placers index the first element with no
emptiness check: on an empty value list the access is out of bounds (a
panic, the inner none), while any non-empty list succeeds; and an empty
list is reachable, since a repeated field decoding to zero elements
extracts to zero values. -/
theorem c10_empty_values_out_of_bounds (nm : String) (request : ClientRequest) :
    applyParamWriter (getParamWriter ⟨nm, "path", []⟩) [] request = some none
  ∧ applyParamWriter (getParamWriter ⟨nm, "body", []⟩) [] request = some none
  ∧ (∀ (v : String) (rest : List String),
      applyParamWriter (getParamWriter ⟨nm, "path", []⟩) (v :: rest) request
        = some (some (Except.ok (setPathParam request nm v)))
      ∧ applyParamWriter (getParamWriter ⟨nm, "body", []⟩) (v :: rest) request
        = some (some (Except.ok (setBodyParam request v))))
  ∧ convertValues ⟨[("repeatedValue", vList [])]⟩
      ⟨"repeatedValue", FieldType.tString, true, false⟩
      (fun value => some (sprintfV value)) = some [] :=
  ⟨rfl, rfl, fun _ _ => ⟨rfl, rfl⟩, rfl⟩

/-- Claim C7: the converter for boolean, integer and floating point
kinds produces the canonical locale-independent text: true and false for
booleans; for every integer the plain decimal form, which parses back to
the same integer and contains only digits and a leading minus sign, so
no grouping separators; and for the double decoded from 3.34 exactly the
text 3.34, the minimal representation that decodes back to the same
binary64 value, while the shorter texts 3.3 and 3 decode to different
values. -/
theorem c7_primitive_canonical_form :
    applyConverter (getStringConverter boolFd plainParam) (vBool true) = some (some "true")
  ∧ applyConverter (getStringConverter boolFd plainParam) (vBool false) = some (some "false")
  ∧ applyConverter (getStringConverter int32Fd plainParam) (vInt 1234) = some (some "1234")
  ∧ (∀ n : Int,
      applyConverter (getStringConverter int64Fd plainParam) (vInt n)
        = some (some (intDec n))
      ∧ parseIntDec (intDec n) = some n
      ∧ (intDec n).data.all (fun c => c.isDigit || c == '-') = true)
  ∧ applyConverter (getStringConverter doubleFd plainParam)
      (vFloat double334.1 double334.2) = some (some "3.34")
  ∧ roundFloatQ 1 167 50 = double334
  ∧ roundFloatQ 1 334 100 = double334
  ∧ roundFloatQ 1 33 10 ≠ double334
  ∧ roundFloatQ 1 3 1 ≠ double334 := by
  refine ⟨by decide, by decide, by decide, ?_, by decide, by decide, by decide,
    by decide, by decide⟩
  intro n
  exact ⟨rfl, parseIntDec_intDec n, intDec_chars n⟩

/-- Claim C8: a map field whose decoded value is a string-keyed mapping
serializes to the JSON object with exactly those entries; the two
iteration orders of the example mapping produce the identical text, and
in general any permutation of distinct-keyed entries, as Go map
iteration may produce, converts to the same output. -/
theorem c8_map_json_content_and_determinism :
    applyConverter (getStringConverter mapFd plainParam)
        (vAnyMap [(vString "bar", vInt 1), (vString "foo", vInt 2)])
      = some (some "\x7b\"bar\":1,\"foo\":2\x7d")
  ∧ applyConverter (getStringConverter mapFd plainParam)
        (vAnyMap [(vString "foo", vInt 2), (vString "bar", vInt 1)])
      = some (some "\x7b\"bar\":1,\"foo\":2\x7d")
  ∧ ∀ (fd : FieldDescr) (p : Param) (l l2 : List (GoValue × GoValue)),
      fd.isMap = true → List.Perm l l2 → (l.map Prod.fst).Nodup →
      applyConverter (getStringConverter fd p) (vAnyMap l)
        = applyConverter (getStringConverter fd p) (vAnyMap l2) := by
  refine ⟨by decide, by decide, ?_⟩
  intro fd p l l2 hmap hperm hnodup
  unfold getStringConverter
  rw [if_pos hmap, applyConverter_ok, applyConverter_ok,
    mapValueToString_perm hperm hnodup]

/-- Witness for claim C8 at the concrete example mapping and its swap. -/
theorem c8_witness :
    mapFd.isMap = true
  ∧ List.Perm [((vString "bar" : GoValue), (vInt 1 : GoValue)), (vString "foo", vInt 2)]
      [(vString "foo", vInt 2), (vString "bar", vInt 1)]
  ∧ ([((vString "bar" : GoValue), (vInt 1 : GoValue)), (vString "foo", vInt 2)].map
      Prod.fst).Nodup
  ∧ applyConverter (getStringConverter mapFd plainParam)
        (vAnyMap [(vString "bar", vInt 1), (vString "foo", vInt 2)])
      = applyConverter (getStringConverter mapFd plainParam)
        (vAnyMap [(vString "foo", vInt 2), (vString "bar", vInt 1)]) :=
  ⟨rfl, List.Perm.swap _ _ _, by simp,
    (c8_map_json_content_and_determinism).2.2 mapFd plainParam _ _ rfl
      (List.Perm.swap _ _ _) (by simp)⟩

/-- Claim C5: a failed decode of the inbound message returns exactly
that error with nothing submitted to the transport; and when the decoded
message reaches the writers, they run in construction order and the
first failing writer aborts the call with exactly its error, with no
request submitted and the writers after it never run (the outcome is the
same for every suffix). -/
theorem c5_decode_and_writer_errors :
    (∀ (p : OperationAdapter) (transport : ClientRequest → Except String DynamicMessage)
        (e : String),
      handleGRPCRequest p (Except.error e) transport
        = ⟨none, some (Except.error e)⟩)
  ∧ (∀ (hm sp : String) (ws1 : List SwaggerParamWriter) (w : SwaggerParamWriter)
        (ws2 : List SwaggerParamWriter) (msg : DynamicMessage)
        (transport : ClientRequest → Except String DynamicMessage)
        (r1 : ClientRequest) (e : String),
      runWriters msg ws1 emptyRequest = some (Except.ok r1) →
      w msg r1 = some (Except.error e) →
      handleGRPCRequest ⟨hm, sp, ws1 ++ w :: ws2⟩ (Except.ok msg) transport
        = ⟨none, some (Except.error e)⟩) := by
  constructor
  · intro p transport e
    rfl
  · intro hm sp ws1 w ws2 msg transport r1 e hok hfail
    have hrun : runWriters msg (ws1 ++ w :: ws2) emptyRequest
        = some (Except.error e) := by
      rw [runWriters_append_ok msg ws1 (w :: ws2) emptyRequest r1 hok]
      unfold runWriters
      rw [hfail]
    have hstep : handleGRPCRequest ⟨hm, sp, ws1 ++ w :: ws2⟩ (Except.ok msg) transport
        = match runWriters msg (ws1 ++ w :: ws2) emptyRequest with
          | none => ⟨none, none⟩
          | some (Except.error e2) => ⟨none, some (Except.error e2)⟩
          | some (Except.ok request) =>
            match transport request with
            | Except.error e2 => ⟨some request, some (Except.error e2)⟩
            | Except.ok resultMessage =>
              ⟨some request, some (Except.ok resultMessage)⟩ := rfl
    rw [hstep, hrun]

/-- A writer fixture that fails with a fixed error. -/
def failWriter : SwaggerParamWriter := fun _ _ => some (Except.error "bad parameter")

/-- A writer fixture that succeeds without touching the request. -/
def okWriter : SwaggerParamWriter := fun _ request => some (Except.ok request)

/-- Witness for claim C5: an empty successful prefix, a writer failing
with a concrete error, and a writer after it that is never run. -/
theorem c5_witness :
    runWriters ⟨[]⟩ [] emptyRequest = some (Except.ok emptyRequest)
  ∧ failWriter ⟨[]⟩ emptyRequest = some (Except.error "bad parameter")
  ∧ handleGRPCRequest ⟨"GET", "/pets", [] ++ failWriter :: [okWriter]⟩
      (Except.ok ⟨[]⟩) (fun _ => Except.error "transport unused")
      = ⟨none, some (Except.error "bad parameter")⟩ :=
  ⟨rfl, rfl,
    (c5_decode_and_writer_errors).2 "GET" "/pets" [] failWriter [okWriter] ⟨[]⟩
      (fun _ => Except.error "transport unused") emptyRequest "bad parameter"
      rfl rfl⟩

/-- Claim C6: construction resolves each parameter by its name with
every hyphen replaced by an underscore, as the concrete conjunct shows
by binding the parameter the-field to the field the_field; and a
parameter whose normalized name matches no field of the input descriptor
fails adapter construction with a binding error, producing no adapter
for that endpoint. -/
theorem c6_binding_resolution :
    (∀ (hm sp : String) (parameters : List Param) (inputProtoType : MessageDescr)
        (param : Param),
      param ∈ parameters →
      findFieldByName inputProtoType (normalizeParamName param.name) = none →
      exceptIsError (newPathWrapper hm sp parameters inputProtoType) = true)
  ∧ exceptIsError (newPathWrapper "GET" "/pets" [⟨"the-field", "query", []⟩]
      ⟨[⟨"the_field", FieldType.tString, false, false⟩]⟩) = false
  ∧ normalizeParamName "the-field" = "the_field" := by
  refine ⟨?_, by decide, by decide⟩
  intro hm sp parameters inputProtoType param hmem hfind
  exact newPathWrapper_unresolved hmem hfind

/-- Witness for claim C6: a parameter named absent binding against a
descriptor with a single differently named field fails construction. -/
theorem c6_witness :
    (⟨"absent", "query", []⟩ : Param) ∈ [(⟨"absent", "query", []⟩ : Param)]
  ∧ findFieldByName ⟨[⟨"the_field", FieldType.tString, false, false⟩]⟩
      (normalizeParamName "absent") = none
  ∧ exceptIsError (newPathWrapper "GET" "/pets" [⟨"absent", "query", []⟩]
      ⟨[⟨"the_field", FieldType.tString, false, false⟩]⟩) = true :=
  ⟨List.mem_singleton.mpr rfl, by decide,
    (c6_binding_resolution).1 "GET" "/pets" [⟨"absent", "query", []⟩]
      ⟨[⟨"the_field", FieldType.tString, false, false⟩]⟩ ⟨"absent", "query", []⟩
      (List.mem_singleton.mpr rfl) (by decide)⟩

/-- Claim C9: a field of group or byte-sequence kind (never map-flagged,
since map fields carry the message kind of their entry type) makes the
converter lookup return an error instead of a function, and a parameter
located in formData, cookie, or any unrecognized location makes the
placer lookup return an error instead of a function; both are
construction-time failures, so no call-time path exists for them. -/
theorem c9_unsupported_kind_and_location :
    (∀ (nm : String) (t : FieldType) (r : Bool) (p : Param),
      t = FieldType.tGroup ∨ t = FieldType.tBytes →
      exceptIsError (getStringConverter ⟨nm, t, r, false⟩ p) = true)
  ∧ (∀ (nm : String) (en : List GoValue) (loc : String),
      loc = "formData" ∨ loc = "cookie" →
      exceptIsError (getParamWriter ⟨nm, loc, en⟩) = true)
  ∧ (∀ (nm : String) (en : List GoValue) (loc : String),
      loc ∉ (["query", "header", "path", "body", "formData", "cookie"] : List String) →
      exceptIsError (getParamWriter ⟨nm, loc, en⟩) = true) := by
  refine ⟨?_, ?_, ?_⟩
  · intro nm t r p h
    rcases h with h | h
    · subst h
      rfl
    · subst h
      rfl
  · intro nm en loc h
    rcases h with h | h
    · subst h
      rfl
    · subst h
      rfl
  · intro nm en loc h
    simp only [List.mem_cons, List.mem_singleton, List.not_mem_nil, not_or] at h
    obtain ⟨h1, h2, h3, h4, h5, h6⟩ := h
    simp only [getParamWriter]
    rw [if_neg h1, if_neg h2, if_neg h3, if_neg h4, if_neg h5, if_neg h6.1]
    rfl

/-- Witness for claim C9: a bytes field, a formData parameter and a
parameter with an unrecognized location all fail resolution. -/
theorem c9_witness :
    (FieldType.tBytes = FieldType.tGroup ∨ FieldType.tBytes = FieldType.tBytes)
  ∧ exceptIsError (getStringConverter ⟨"bytesValue", FieldType.tBytes, false, false⟩
      plainParam) = true
  ∧ (("formData" : String) = "formData" ∨ ("formData" : String) = "cookie")
  ∧ exceptIsError (getParamWriter ⟨"f", "formData", []⟩) = true
  ∧ ("teapot" : String) ∉
      (["query", "header", "path", "body", "formData", "cookie"] : List String)
  ∧ exceptIsError (getParamWriter ⟨"u", "teapot", []⟩) = true :=
  ⟨Or.inr rfl,
    (c9_unsupported_kind_and_location).1 "bytesValue" FieldType.tBytes false plainParam
      (Or.inr rfl),
    Or.inl rfl,
    (c9_unsupported_kind_and_location).2.1 "f" [] "formData" (Or.inl rfl),
    by decide,
    (c9_unsupported_kind_and_location).2.2 "u" [] "teapot" (by decide)⟩
